import Mathlib

/-!
Formalisation of the evaluation pipeline in `src/segmentation/evaluate.py`
(BraTS18-Project).

Numpy arrays are modelled as nested lists of rationals:
a 2-D array is `Mat := List (List ℚ)`, a 3-D volume is `Vol3 := List Mat`,
a 4-D volume (the stacked-modality MRI) is `Vol4 := List Vol3`.
Real-valued image data is modelled by `ℚ` so that every definition is
executable.  Fallible Python code (numpy `IndexError`, `ValueError` raised
by `random.choices` or `np.min`) is modelled with `Except String`.
-/

/-- A 2-D numpy array. -/
abbrev Mat : Type := List (List ℚ)

/-- A 3-D numpy array (one imaging volume, axes 0,1,2). -/
abbrev Vol3 : Type := List Mat

/-- A 4-D numpy array (the stacked-modality MRI). -/
abbrev Vol4 : Type := List Vol3

/-- Sum of all entries of a 2-D array, `np.sum` of a 2-D slice. -/
def matSum (m : Mat) : ℚ := (m.map List.sum).sum

/-- Flatten a 3-D volume to 1-D, `np.ravel`. -/
def ravel3 (v : Vol3) : List ℚ := (v.map List.flatten).flatten

/-- The slice `v[:, i, :]` of a 3-D volume: indexing along axis 1.
This is how `make_image` extracts `patient.flair[:, coronal_index, :]`
(evaluate.py line 74). -/
def slice1 (v : Vol3) (i : Nat) : Mat := v.map (fun plane => plane.getD i [])

/-- The slice `v[:, :, i]` of a 3-D volume: indexing along axis 2.
This is how `get_tumor_range` and the weight computation read
`patient.seg[:, :, i]` (evaluate.py lines 68 and 112). -/
def slice2 (v : Vol3) (i : Nat) : Mat :=
  v.map (fun plane => plane.map (fun row => row.getD i 0))

/-- The numpy `shape` tuple of a 3-D volume: a list with exactly three
entries.  (The BraTS ground-truth segmentation is a 3-dimensional array;
spec section 3, Data Model: a Volume is 3-dimensional.) -/
def ndShape3 (v : Vol3) : List Nat :=
  [v.length, (v.headD []).length, ((v.headD []).headD []).length]

/-- Display transform used by `make_image`: `slice.T[::-1, :]`
(transpose, then reverse the first spatial axis). -/
def transposeRev (m : Mat) : Mat := m.transpose.reverse

/-- One entry of `matplotlib.colors.Normalize(vmin=0, vmax=1, clip=True)`:
`(x - 0) / (1 - 0)` clipped into `[0, 1]`. -/
def normClip (x : ℚ) : ℚ := max 0 (min 1 x)

/-- `Normalize(0, 1, clip=True)` applied elementwise to a 2-D array. -/
def normClipMat (m : Mat) : Mat := m.map (fun row => row.map normClip)

/-- Elementwise thresholding of `to_single_class` (evaluate.py lines 40-44):
`_seg[seg >= threshold] = 1; _seg[seg < threshold] = 0`.  The concluding
`astype(int)` maps the values 0 and 1 to the integers 0 and 1, which is
value-preserving in this model. -/
def to_single_class (seg : List ℚ) (threshold : ℚ) : List ℚ :=
  seg.map (fun x => if threshold ≤ x then 1 else 0)

/-- `to_single_class` applied to a 3-D volume (numpy applies the comparison
elementwise over the whole array). -/
def to_single_class3 (seg : Vol3) (threshold : ℚ) : Vol3 :=
  seg.map (fun plane => plane.map (fun row => to_single_class row threshold))

/-- `dice_coefficient` (evaluate.py lines 33-37) on already-flattened
(1-D) arrays.  `np.ravel` flattens both inputs; `np.logical_and` is
elementwise (x ≠ 0 ∧ y ≠ 0) and `.sum()` on the boolean result counts the
`True` entries; the denominator sums the raw (unflattened) arrays, which
equals the sum of the flattened ones. -/
def dice_coefficient (pred truth : List ℚ) (smooth : ℚ) : ℚ :=
  let intersection : Nat :=
    (pred.zip truth).countP (fun p => decide (p.1 ≠ 0 ∧ p.2 ≠ 0))
  (2 * (intersection : ℚ) + smooth) / (pred.sum + truth.sum + smooth)

/-- Default smoothing constant `smooth=0.02` of `dice_coefficient`. -/
def smoothDefault : ℚ := 1 / 50

/-- `_crop` (evaluate.py lines 52-54): `image[..., 3:]` removes the first
three entries along the last axis of a 3-D volume. -/
def _crop (v : Vol3) : Vol3 := v.map (fun plane => plane.map (fun row => row.drop 3))

/-- `image[..., 3:]` on a 4-D array. -/
def _crop4 (v : Vol4) : Vol4 := v.map _crop

/-- `image[..., 3:]` on a 5-D array (the batch-expanded MRI). -/
def _crop5 (v : List Vol4) : List Vol4 := v.map _crop4

/-- `get_tumor_range` (evaluate.py lines 57-70).  The loop header is
`for i in range(patient.seg.shape[3])`; on the 3-dimensional segmentation
volume the shape tuple has exactly three entries, so `shape[3]` raises
`IndexError: tuple index out of range` before the loop body
(`np.sum(patient.seg[:, :, i]) != 0`) ever runs. -/
def get_tumor_range (seg : Vol3) : Except String (List Nat) :=
  match (ndShape3 seg).get? 3 with
  | none => Except.error "IndexError: tuple index out of range"
  | some d =>
      Except.ok ((List.range d).filter (fun i => decide (matSum (slice2 seg i) ≠ 0)))

/-- The per-slice weights of `make_images` (evaluate.py line 112):
`weights = [np.sum(patient.seg[:, :, i]) for i in tumor_range]`. -/
def makeImagesWeights (seg : Vol3) (tumor_range : List Nat) : List ℚ :=
  tumor_range.map (fun i => matSum (slice2 seg i))

/-- `itertools.accumulate(weights)`: the running cumulative sums, as built
inside `random.choices`. -/
def cumAccumulate (ws : List ℚ) : List ℚ := (ws.scanl (· + ·) 0).tail

/-- `bisect.bisect_right(a, x, lo, hi)` (CPython `bisect` module):
binary search loop `while lo < hi: mid = (lo+hi)//2;
if x < a[mid]: hi = mid else: lo = mid+1; return lo`, embedded with an
explicit fuel argument bounding the iteration count; the loop shrinks
`hi - lo` every iteration, so any fuel of at least `hi - lo` is exact. -/
def bisect_right (a : List ℚ) (x : ℚ) : Nat → Nat → Nat → Nat
  | 0, lo, _ => lo
  | fuel + 1, lo, hi =>
    if lo < hi then
      if x < a.getD ((lo + hi) / 2) 0 then bisect_right a x fuel lo ((lo + hi) / 2)
      else bisect_right a x fuel (((lo + hi) / 2) + 1) hi
    else lo

/-- `random.choices(population, weights=weights, k=k)` (CPython ≥ 3.9,
weights path): builds `cum_weights = list(accumulate(weights))`, checks
`len(cum_weights) == len(population)` (`ValueError` otherwise), reads
`total = cum_weights[-1]` (`IndexError` on an empty population), raises
`ValueError` when `total <= 0`, and otherwise performs `k` independent
draws `population[bisect(cum_weights, random() * total, 0, hi)]` with
`hi = len(population) - 1` — i.e. sampling WITH replacement.
The random stream is an explicit argument `rand : Nat → ℚ` giving the
value of the j-th call of `random()`. -/
def random_choices (population : List Nat) (weights : List ℚ) (k : Nat)
    (rand : Nat → ℚ) : Except String (List Nat) :=
  let cum_weights := cumAccumulate weights
  if cum_weights.length ≠ population.length then
    Except.error "ValueError: The number of weights does not match the population"
  else
    match cum_weights.getLast? with
    | none => Except.error "IndexError: list index out of range"
    | some total =>
      if total ≤ 0 then
        Except.error "ValueError: Total of weights must be greater than zero"
      else
        Except.ok ((List.range k).map (fun j =>
          population.getD
            (bisect_right cum_weights (rand j * total) cum_weights.length 0
              (population.length - 1)) 0))

/-- The weighted slice sampler of `make_images` (evaluate.py line 113):
`sorted(random.choices(tumor_range, weights=weights, k=num_images))`.
Python `sorted` is ascending and stable; it is modelled by
`List.insertionSort` with `≤`. -/
def sample_slices (extent : List Nat) (weights : List ℚ) (k : Nat)
    (rand : Nat → ℚ) : Except String (List Nat) :=
  (random_choices extent weights k rand).map (List.insertionSort (· ≤ ·))

/-- The observable pixel data assembled by `make_image`
(evaluate.py lines 73-98).  `cmap` itself (`plt.cm.RdYlBu`) is an external
fixed function of the array recorded in the `ColorBase` fields, so two
panels receive equal overlay colors exactly when their color-base arrays
are equal. -/
structure FigureData where
  /-- `_img = patient.flair[:, coronal_index, :].T[::-1, :]` (line 74). -/
  img : Mat
  /-- the array passed to `cmap` for the left overlay:
  `Normalize(vmin, vmax, clip=True)(_seg)` (line 81). -/
  leftColorBase : Mat
  /-- `colors[..., -1] = _seg` (line 83): the left overlay alpha channel. -/
  leftAlpha : Mat
  /-- the array passed to `cmap` for the right overlay: line 92 reads
  `colors_p = cmap(colors)` — the argument is `colors`, the array derived
  from the ground truth (the freshly computed `Normalize(...)(segmentation)`
  of line 91 is discarded). -/
  rightColorBase : Mat
  /-- `colors_p[..., -1] = segmentation` (line 93): the raw, un-sliced,
  un-transposed predicted volume. -/
  rightAlpha : Vol3
  deriving DecidableEq

/-- `make_image` (evaluate.py lines 73-101), restricted to the pixel data
it computes (figure layout, titles and file output are external sinks). -/
def make_image (flair seg : Vol3) (segmentation : Vol3) (coronal_index : Nat) :
    FigureData :=
  let _img := transposeRev (slice1 flair coronal_index)
  let _seg := transposeRev (slice1 (to_single_class3 seg (1 / 2)) coronal_index)
  let colors := normClipMat _seg
  { img := _img
    leftColorBase := colors
    leftAlpha := _seg
    rightColorBase := colors
    rightAlpha := segmentation }

/-- `make_images` (evaluate.py lines 104-116): find the tumor range, weight
each of its slices by its tumor voxel count, sample `num_images` slices,
returning the chosen coronal indices (each then rendered by `make_image`).
Python exceptions propagate through `Except`. -/
def make_images (patient_seg : Vol3) (num_images : Nat) (rand : Nat → ℚ) :
    Except String (List Nat) :=
  match get_tumor_range patient_seg with
  | Except.error e => Except.error e
  | Except.ok tumor_range =>
      sample_slices tumor_range (makeImagesWeights patient_seg tumor_range)
        num_images rand

/-- Summary statistics of `log_metrics`; `np.std` is the square root of
the `var` field (numpy default `ddof=0`), recorded as the (rational)
variance so that the record stays executable. -/
structure Stats where
  mean : ℚ
  var : ℚ
  min : ℚ
  max : ℚ
  deriving DecidableEq

/-- `np.mean`: sum divided by length. -/
def np_mean (xs : List ℚ) : ℚ := xs.sum / xs.length

/-- The square of `np.std` (numpy default `ddof=0`): the mean squared
deviation from the mean. -/
def np_var (xs : List ℚ) : ℚ :=
  (xs.map (fun x => (x - np_mean xs) ^ 2)).sum / xs.length

/-- `np.std`: the square root of the population variance. -/
noncomputable def np_std (xs : List ℚ) : ℝ := Real.sqrt (np_var xs)

/-- `log_metrics` (evaluate.py lines 119-129).  On an empty sequence
`np.mean` and `np.std` return NaN (with a runtime warning) but `np.min`
raises `ValueError: zero-size array to reduction operation minimum which
has no identity`, so the function raises before logging anything; on a
non-empty sequence it logs mean, std, min and max. -/
def log_metrics (xs : List ℚ) : Except String Stats :=
  match xs with
  | [] =>
      Except.error
        "ValueError: zero-size array to reduction operation minimum which has no identity"
  | x :: rest =>
      Except.ok
        { mean := np_mean xs
          var := np_var xs
          min := rest.foldl Min.min x
          max := rest.foldl Max.max x }

/-- A patient record as read by the evaluation loop (`BraTS.Patient`):
an identifier, the 4-D stacked-modality MRI, the 3-D ground-truth
segmentation, and the 3-D FLAIR volume used for display. -/
structure Patient where
  id : String
  mri : Vol4
  seg : Vol3
  flair : Vol3

/-- The dataset collaborator: one `patient(id)` accessor per split
(`brats.train`, `brats.validation`, `brats.test`). -/
structure DataSet where
  train : String → Patient
  validation : String → Patient
  test : String → Patient

/-- The inner `get_segmentation` of `make_histograms_and_images`
(evaluate.py lines 142-148): expand the MRI with a leading batch axis
(`np.expand_dims(mri, axis=0)`), crop it, run the model, and binarize the
output at threshold 0.5. -/
def get_segmentation (run_model : List Vol4 → Vol3) (mri : Vol4) : Vol3 :=
  to_single_class3 (run_model (_crop5 [mri])) (1 / 2)

/-- The per-patient computation of `make_histograms_and_images`
(evaluate.py lines 150-163), restricted to its data flow: for each patient
id — fetched, for every partition alike, through `brats.train.patient(id)`
(line 152) — compute the predicted and ground-truth binary masks and their
dice coefficient.  Directory creation, logging, rendering and cache drops
are external side effects. -/
def make_histograms_and_images (run_model : List Vol4 → Vol3) (brats : DataSet)
    (patient_ids : List String) : List ℚ :=
  patient_ids.map (fun id =>
    let patient := brats.train id
    let pred := get_segmentation run_model patient.mri
    let truth := to_single_class3 (_crop patient.seg) (1 / 2)
    dice_coefficient (ravel3 pred) (ravel3 truth) smoothDefault)

/-- `evaluate` (evaluate.py lines 169-180): run
`make_histograms_and_images` on the test, validation and train partitions
(in that order), against the same dataset handle. -/
def evaluate (run_model : List Vol4 → Vol3) (brats : DataSet)
    (train_ids test_ids validation_ids : List String) :
    List ℚ × List ℚ × List ℚ :=
  (make_histograms_and_images run_model brats test_ids,
   make_histograms_and_images run_model brats validation_ids,
   make_histograms_and_images run_model brats train_ids)

/-! Helper lemmas (shared across claims). -/

/-- Membership in a zip projects to membership in both lists. -/
lemma mem_of_mem_zip {p : ℚ × ℚ} {xs ys : List ℚ} (h : p ∈ xs.zip ys) :
    p.1 ∈ xs ∧ p.2 ∈ ys := by
  induction xs generalizing ys with
  | nil => simp [List.zip] at h
  | cons a xs ih =>
    cases ys with
    | nil => simp [List.zip] at h
    | cons b ys =>
      rcases List.mem_cons.mp h with h | h
      · subst h; exact ⟨List.mem_cons_self _ _, List.mem_cons_self _ _⟩
      · obtain ⟨h1, h2⟩ := ih h
        exact ⟨List.mem_cons_of_mem _ h1, List.mem_cons_of_mem _ h2⟩

/-- For equal-length lists, the sum of elementwise sums of the zip equals
the sum of the two sums. -/
lemma sum_zip_add : ∀ (xs ys : List ℚ), xs.length = ys.length →
    ((xs.zip ys).map (fun p => p.1 + p.2)).sum = xs.sum + ys.sum := by
  intro xs
  induction xs with
  | nil =>
    intro ys h
    have : ys = [] := List.length_eq_zero.mp h.symm
    simp [this]
  | cons a xs ih =>
    intro ys h
    cases ys with
    | nil => simp at h
    | cons b ys =>
      have h' : xs.length = ys.length := by simpa using h
      simp only [List.zip_cons_cons, List.map_cons, List.sum_cons, ih ys h']
      ring

/-- On aligned 0/1-valued pairs, twice the count of pairs that are both
nonzero is at most the sum of all pair entries. -/
lemma twoCount_le_sum : ∀ (l : List (ℚ × ℚ)),
    (∀ p ∈ l, (p.1 = 0 ∨ p.1 = 1) ∧ (p.2 = 0 ∨ p.2 = 1)) →
    2 * ((l.countP (fun p => decide (p.1 ≠ 0 ∧ p.2 ≠ 0)) : Nat) : ℚ) ≤
      (l.map (fun p => p.1 + p.2)).sum := by
  intro l
  induction l with
  | nil => simp
  | cons a l ih =>
    intro h
    have ha := h a (List.mem_cons_self _ _)
    have ih' := ih (fun p hp => h p (List.mem_cons_of_mem _ hp))
    rw [List.map_cons, List.sum_cons]
    rcases ha with ⟨h1 | h1, h2 | h2⟩
    · rw [List.countP_cons_of_neg _ _ (by simp [h1]), h1, h2]; linarith
    · rw [List.countP_cons_of_neg _ _ (by simp [h1]), h1, h2]; linarith
    · rw [List.countP_cons_of_neg _ _ (by simp [h2]), h1, h2]; linarith
    · rw [List.countP_cons_of_pos _ _ (by simp [h1, h2]), h1, h2]
      push_cast
      linarith

/-- Claim C1: for every pair of equal-length 0/1-valued masks and every
positive smoothing constant, the dice coefficient equals
(2·(count of positions nonzero in both) + smooth) /
(sum of pred + sum of truth + smooth), and this value lies in (0, 1]. -/
theorem C1_dice_formula_and_bounds (pred truth : List ℚ) (smooth : ℚ)
    (hs : 0 < smooth) (hlen : pred.length = truth.length)
    (hp : ∀ x ∈ pred, x = 0 ∨ x = 1) (ht : ∀ x ∈ truth, x = 0 ∨ x = 1) :
    dice_coefficient pred truth smooth =
      (2 * (((pred.zip truth).countP (fun p => decide (p.1 ≠ 0 ∧ p.2 ≠ 0)) : Nat) : ℚ)
          + smooth) / (pred.sum + truth.sum + smooth) ∧
    0 < dice_coefficient pred truth smooth ∧
    dice_coefficient pred truth smooth ≤ 1 := by
  have hzip : ∀ p ∈ pred.zip truth, (p.1 = 0 ∨ p.1 = 1) ∧ (p.2 = 0 ∨ p.2 = 1) := by
    intro p hmem
    obtain ⟨h1, h2⟩ := mem_of_mem_zip hmem
    exact ⟨hp _ h1, ht _ h2⟩
  have hsum : ((pred.zip truth).map (fun p => p.1 + p.2)).sum = pred.sum + truth.sum :=
    sum_zip_add pred truth hlen
  have h2I : 2 * (((pred.zip truth).countP
      (fun p => decide (p.1 ≠ 0 ∧ p.2 ≠ 0)) : Nat) : ℚ) ≤ pred.sum + truth.sum := by
    rw [← hsum]; exact twoCount_le_sum _ hzip
  have hP : 0 ≤ pred.sum := List.sum_nonneg (by
    intro x hx; rcases hp x hx with h | h <;> simp [h])
  have hT : 0 ≤ truth.sum := List.sum_nonneg (by
    intro x hx; rcases ht x hx with h | h <;> simp [h])
  have hden : 0 < pred.sum + truth.sum + smooth := by linarith
  have hIc : (0 : ℚ) ≤ (((pred.zip truth).countP
      (fun p => decide (p.1 ≠ 0 ∧ p.2 ≠ 0)) : Nat) : ℚ) := Nat.cast_nonneg _
  have hnum : 0 < 2 * (((pred.zip truth).countP
      (fun p => decide (p.1 ≠ 0 ∧ p.2 ≠ 0)) : Nat) : ℚ) + smooth := by linarith
  have hform : dice_coefficient pred truth smooth =
      (2 * (((pred.zip truth).countP (fun p => decide (p.1 ≠ 0 ∧ p.2 ≠ 0)) : Nat) : ℚ)
          + smooth) / (pred.sum + truth.sum + smooth) := rfl
  refine ⟨hform, ?_, ?_⟩
  · rw [hform]; exact div_pos hnum hden
  · rw [hform, div_le_one hden]; linarith

/-- Witness for C1 at the concrete masks pred = [1,0,1], truth = [1,1,0]
and smooth = 1/50: the dice value is (2+1/50)/(4+1/50) and lies in (0,1]. -/
theorem C1_witness :
    dice_coefficient [(1 : ℚ), 0, 1] [1, 1, 0] (1 / 50) =
      (2 * ((([(1 : ℚ), 0, 1].zip [1, 1, 0]).countP
          (fun p => decide (p.1 ≠ 0 ∧ p.2 ≠ 0)) : Nat) : ℚ) + 1 / 50)
        / ([(1 : ℚ), 0, 1].sum + [(1 : ℚ), 1, 0].sum + 1 / 50) ∧
    0 < dice_coefficient [(1 : ℚ), 0, 1] [1, 1, 0] (1 / 50) ∧
    dice_coefficient [(1 : ℚ), 0, 1] [1, 1, 0] (1 / 50) ≤ 1 :=
  C1_dice_formula_and_bounds [1, 0, 1] [1, 1, 0] (1 / 50) (by norm_num)
    (by decide) (by decide) (by decide)

/-- The bisect loop result stays within the interval [lo, hi]. -/
lemma bisect_right_le (a : List ℚ) (x : ℚ) :
    ∀ (fuel lo hi : Nat), lo ≤ hi →
      lo ≤ bisect_right a x fuel lo hi ∧ bisect_right a x fuel lo hi ≤ hi := by
  intro fuel
  induction fuel with
  | zero =>
    intro lo hi h
    exact ⟨le_refl _, h⟩
  | succ n ih =>
    intro lo hi h
    simp only [bisect_right]
    by_cases hlt : lo < hi
    · rw [if_pos hlt]
      by_cases hx : x < a.getD ((lo + hi) / 2) 0
      · rw [if_pos hx]
        have hm : lo ≤ (lo + hi) / 2 := by omega
        obtain ⟨h1, h2⟩ := ih lo ((lo + hi) / 2) hm
        exact ⟨h1, h2.trans (by omega)⟩
      · rw [if_neg hx]
        have hm : (lo + hi) / 2 + 1 ≤ hi := by omega
        obtain ⟨h1, h2⟩ := ih ((lo + hi) / 2 + 1) hi hm
        exact ⟨by omega, h2⟩
    · rw [if_neg hlt]
      exact ⟨le_refl _, h⟩

/-- The cumulative-sum list has the same length as the weight list. -/
lemma length_cumAccumulate (ws : List ℚ) : (cumAccumulate ws).length = ws.length := by
  simp [cumAccumulate, List.length_tail, List.length_scanl]

/-- getLast? skips the head when the tail is nonempty. -/
lemma getLast?_cons_ne (a : ℚ) {l : List ℚ} (h : l ≠ []) :
    (a :: l).getLast? = l.getLast? := by
  cases l with
  | nil => exact absurd rfl h
  | cons b l => exact List.getLast?_cons_cons

/-- The last entry of a scanl of addition is the seed plus the sum. -/
lemma getLast?_scanl_add : ∀ (xs : List ℚ) (b : ℚ),
    (xs.scanl (· + ·) b).getLast? = some (b + xs.sum) := by
  intro xs
  induction xs with
  | nil => intro b; simp
  | cons x xs ih =>
    intro b
    rw [List.scanl_cons, List.singleton_append]
    have hne : xs.scanl (· + ·) (b + x) ≠ [] := by
      intro hc
      have := congrArg List.length hc
      simp [List.length_scanl] at this
    rw [getLast?_cons_ne _ hne, ih]
    simp [List.sum_cons]
    ring

/-- The last cumulative weight is the total weight. -/
lemma getLast?_cumAccumulate (ws : List ℚ) (h : ws ≠ []) :
    (cumAccumulate ws).getLast? = some ws.sum := by
  cases ws with
  | nil => exact absurd rfl h
  | cons w ws =>
    rw [cumAccumulate, List.scanl_cons, List.singleton_append, List.tail_cons]
    rw [getLast?_scanl_add]
    simp [List.sum_cons]

/-- Claim C2 is false of the code: the sampler draws WITH replacement
(`random.choices`), so with extent [0, 1], weights [1, 1], k = 5 and a
random stream that always returns 0 it produces [0, 0, 0, 0, 0] — of
length 5 rather than min 5 2 = 2, not strictly ascending, and with
duplicate indices. -/
theorem C2_counterexample :
    sample_slices [0, 1] [1, 1] 5 (fun _ => (0 : ℚ)) = Except.ok [0, 0, 0, 0, 0] ∧
    ¬ (([0, 0, 0, 0, 0] : List Nat).length = min 5 ([0, 1] : List Nat).length) ∧
    ¬ List.Sorted (· < ·) ([0, 0, 0, 0, 0] : List Nat) ∧
    ¬ ([0, 0, 0, 0, 0] : List Nat).Nodup :=
  ⟨by with_unfolding_all rfl, by decide, by decide, by decide⟩

/-- Claim C2 amended: the sampler of `make_images` draws WITH replacement
via `random.choices`; whenever the extent is non-empty, the weights are
aligned with it and have positive total, it returns a non-decreasing
(not necessarily strictly ascending) sequence of length exactly k (not
min k |extent|) all of whose elements belong to the extent; duplicates can
occur. -/
theorem C2_sampler_with_replacement (extent : List Nat) (weights : List ℚ)
    (k : Nat) (rand : Nat → ℚ) (hne : extent ≠ [])
    (hlen : weights.length = extent.length) (hpos : 0 < weights.sum) :
    ∃ l, sample_slices extent weights k rand = Except.ok l ∧
      l.length = k ∧ l.Sorted (· ≤ ·) ∧ ∀ x ∈ l, x ∈ extent := by
  have hwne : weights ≠ [] := by
    intro hc
    rw [hc] at hlen
    exact hne (List.length_eq_zero.mp hlen.symm)
  have hlc : (cumAccumulate weights).length = extent.length := by
    rw [length_cumAccumulate, hlen]
  have hlast : (cumAccumulate weights).getLast? = some weights.sum :=
    getLast?_cumAccumulate weights hwne
  have hrc : random_choices extent weights k rand =
      Except.ok ((List.range k).map (fun j =>
        extent.getD
          (bisect_right (cumAccumulate weights) (rand j * weights.sum)
            (cumAccumulate weights).length 0 (extent.length - 1)) 0)) := by
    simp only [random_choices, hlast]
    rw [if_neg (by rw [hlc]; exact fun hc => hc rfl), if_neg (not_le.mpr hpos)]
  refine ⟨List.insertionSort (· ≤ ·) ((List.range k).map (fun j =>
      extent.getD
        (bisect_right (cumAccumulate weights) (rand j * weights.sum)
          (cumAccumulate weights).length 0 (extent.length - 1)) 0)),
    ?_, ?_, ?_, ?_⟩
  · rw [sample_slices, hrc]
    rfl
  · rw [List.length_insertionSort, List.length_map, List.length_range]
  · exact List.sorted_insertionSort _ _
  · intro x hx
    have hx' : x ∈ (List.range k).map (fun j =>
        extent.getD
          (bisect_right (cumAccumulate weights) (rand j * weights.sum)
            (cumAccumulate weights).length 0 (extent.length - 1)) 0) := by
      simpa using hx
    obtain ⟨j, _, hxe⟩ := List.mem_map.mp hx'
    have hext : 0 < extent.length := List.length_pos.mpr hne
    have hb := (bisect_right_le (cumAccumulate weights) (rand j * weights.sum)
      (cumAccumulate weights).length 0 (extent.length - 1) (Nat.zero_le _)).2
    have hlt : bisect_right (cumAccumulate weights) (rand j * weights.sum)
        (cumAccumulate weights).length 0 (extent.length - 1) < extent.length := by
      omega
    rw [← hxe, List.getD_eq_getElem _ _ hlt]
    exact List.getElem_mem hlt

/-- Witness for the amended C2 at extent [0, 1], weights [1, 1], k = 5 and
the all-zero random stream. -/
theorem C2_witness :
    ∃ l, sample_slices [0, 1] [1, 1] 5 (fun _ => (0 : ℚ)) = Except.ok l ∧
      l.length = 5 ∧ l.Sorted (· ≤ ·) ∧ ∀ x ∈ l, x ∈ ([0, 1] : List Nat) :=
  C2_sampler_with_replacement [0, 1] [1, 1] 5 (fun _ => (0 : ℚ))
    (by decide) (by decide) (by norm_num)

/-- Claim C3 describes the intended behaviour, but the code is wrong: the
loop header of `get_tumor_range` evaluates `patient.seg.shape[3]`, and the
shape tuple of the 3-dimensional segmentation volume has no index 3, so the
finder raises IndexError on EVERY input — including the all-zero volume for
which the claim promises an empty sequence — instead of iterating the last
axis. -/
theorem C3_get_tumor_range_index_error (seg : Vol3) :
    get_tumor_range seg = Except.error "IndexError: tuple index out of range" :=
  rfl

/-- Claim C4 fails on the code: on the volume v = [[[0, 1], [0, 0]]]
(shape 1×2×2), index 1 receives sampling weight 1 because the extent
finder and the weight computation read the axis-2 slice v[:, :, 1] =
[[1, 0]] (tumor present), while the renderer extracts the axis-1 slice
v[:, 1, :] = [[0, 0]] — its displayed ground-truth overlay at the same
index is identically zero.  The same index denotes two different physical
slices. -/
theorem C4_axis_inconsistency :
    makeImagesWeights [[[(0 : ℚ), 1], [0, 0]]] [1] = [1] ∧
    matSum ((make_image [[[(0 : ℚ), 1], [0, 0]]] [[[(0 : ℚ), 1], [0, 0]]]
      [[[(0 : ℚ), 0], [0, 0]]] 1).leftAlpha) = 0 ∧
    slice2 [[[(0 : ℚ), 1], [0, 0]]] 1 ≠ slice1 [[[(0 : ℚ), 1], [0, 0]]] 1 := by
  refine ⟨by with_unfolding_all rfl, by with_unfolding_all rfl, ?_⟩
  have h1 : slice2 [[[(0 : ℚ), 1], [0, 0]]] 1 = [[1, 0]] := by with_unfolding_all rfl
  have h2 : slice1 [[[(0 : ℚ), 1], [0, 0]]] 1 = [[0, 0]] := by with_unfolding_all rfl
  rw [h1, h2]
  decide

/-- Claim C5 fails on the code for out-of-range thresholds: with V = [2]
and t = 2, binarizing once gives [1] but binarizing the result again gives
[0], since 1 < 2. -/
theorem C5_counterexample :
    to_single_class (to_single_class [(2 : ℚ)] 2) 2 ≠ to_single_class [(2 : ℚ)] 2 := by
  decide

/-- Claim C5 amended: binarization is idempotent for every volume whenever
the threshold t satisfies 0 < t ≤ 1 (in particular at the threshold 0.5
used throughout the code); for out-of-range thresholds (t ≤ 0 or t > 1) a
second application can change the result. -/
theorem C5_idempotent_in_range (V : List ℚ) (t : ℚ) (h0 : 0 < t) (h1 : t ≤ 1) :
    to_single_class (to_single_class V t) t = to_single_class V t := by
  unfold to_single_class
  rw [List.map_map]
  apply List.map_congr_left
  intro x _
  by_cases hx : t ≤ x
  · simp only [Function.comp_apply, if_pos hx, if_pos h1]
  · simp only [Function.comp_apply, if_neg hx, if_neg (not_le.mpr h0)]

/-- Witness for the amended C5 at V = [3/4, -1, 2] and the code's actual
threshold t = 1/2. -/
theorem C5_witness :
    to_single_class (to_single_class [(3 : ℚ) / 4, -1, 2] (1 / 2)) (1 / 2)
      = to_single_class [(3 : ℚ) / 4, -1, 2] (1 / 2) :=
  C5_idempotent_in_range [(3 : ℚ) / 4, -1, 2] (1 / 2) (by norm_num) (by norm_num)

/-- Claim C6 fails on the code: with the one-element extent [5] and the
all-zero weight list [0], the sampler raises ValueError inside
`random.choices` (total of weights must be greater than zero) — it returns
no indices at all, rather than min(k, 1) = 1 distinct index by uniform
fallback. -/
theorem C6_counterexample :
    sample_slices [5] [0] 1 (fun _ => (0 : ℚ)) =
      Except.error "ValueError: Total of weights must be greater than zero" := by
  with_unfolding_all rfl

/-- Claim C6 amended: for every non-empty extent with aligned all-zero
weights, the sampler raises ValueError (total of weights must be greater
than zero) from `random.choices`.  It indeed raises no division error, but
there is no uniform-sampling fallback and no indices are returned. -/
theorem C6_all_zero_weights_raise (extent : List Nat) (weights : List ℚ)
    (k : Nat) (rand : Nat → ℚ) (hne : extent ≠ [])
    (hlen : weights.length = extent.length) (hzero : ∀ w ∈ weights, w = 0) :
    sample_slices extent weights k rand =
      Except.error "ValueError: Total of weights must be greater than zero" := by
  have hwne : weights ≠ [] := by
    intro hc
    rw [hc] at hlen
    exact hne (List.length_eq_zero.mp hlen.symm)
  have hlast : (cumAccumulate weights).getLast? = some weights.sum :=
    getLast?_cumAccumulate weights hwne
  have hsum : weights.sum = 0 := List.sum_eq_zero hzero
  have hrc : random_choices extent weights k rand =
      Except.error "ValueError: Total of weights must be greater than zero" := by
    simp only [random_choices, hlast, hsum]
    rw [if_neg (by rw [length_cumAccumulate, hlen]; exact fun hc => hc rfl),
      if_pos le_rfl]
  rw [sample_slices, hrc]
  rfl

/-- Witness for the amended C6 at extent [3, 7], weights [0, 0], k = 2. -/
theorem C6_witness :
    sample_slices [3, 7] [0, 0] 2 (fun _ => (1 : ℚ) / 3) =
      Except.error "ValueError: Total of weights must be greater than zero" :=
  C6_all_zero_weights_raise [3, 7] [0, 0] 2 (fun _ => (1 : ℚ) / 3)
    (by decide) (by decide) (by decide)

/-- Claim C7 fails on the code: with an empty extent (k = 5 here) the
sampler raises IndexError inside `random.choices` (`cum_weights[-1]` on an
empty list) instead of returning the empty sequence the claim promises. -/
theorem C7_counterexample :
    sample_slices [] [] 5 (fun _ => (0 : ℚ)) =
      Except.error "IndexError: list index out of range" :=
  rfl

/-- Claim C7 amended: for every k and every random stream, the sampler on
an empty extent raises IndexError (reading `cum_weights[-1]` of an empty
cumulative-weight list inside `random.choices`) rather than returning []. -/
theorem C7_empty_extent_raises (k : Nat) (rand : Nat → ℚ) :
    sample_slices [] [] k rand =
      Except.error "IndexError: list index out of range" :=
  rfl

/-- Claim C8: `log_metrics` fails on the empty score sequence — `np.min`
raises ValueError (the realisation of the spec's EmptyInput) before
anything is logged, so no NaN is reported — and on the singleton [1/2] it
reports mean 1/2, std = sqrt(var) = 0, min 1/2 and max 1/2. -/
theorem C8_log_metrics_empty_and_singleton :
    log_metrics [] = Except.error
      "ValueError: zero-size array to reduction operation minimum which has no identity" ∧
    log_metrics [1 / 2] =
      Except.ok { mean := 1 / 2, var := 0, min := 1 / 2, max := 1 / 2 } ∧
    np_std [1 / 2] = 0 := by
  refine ⟨rfl, by with_unfolding_all rfl, ?_⟩
  have h : np_var [(1 : ℚ) / 2] = 0 := by with_unfolding_all rfl
  unfold np_std
  rw [h]
  simp

/-- Claim C9 fails on the code: in `make_image` the right panel's overlay
colors are computed as `colors_p = cmap(colors)` — from the ground-truth
display slice, not the prediction (the freshly normalized prediction on
the previous line is discarded) — and the overlay's alpha channel is
assigned the raw un-sliced, un-transposed predicted volume.  Concretely,
with the all-zero truth volume, the all-one predicted volume and slice
index 0: the array handed to the colormap for the right panel equals the
left panel's (truth-derived) array [[0], [0]], differing from the
claim-required transform of the prediction slice [[1], [1]]; and the alpha
source equals the whole 3-D prediction volume. -/
theorem C9_right_panel_mismatch :
    (make_image [[[(0 : ℚ), 0], [0, 0]]] [[[(0 : ℚ), 0], [0, 0]]]
        [[[(1 : ℚ), 1], [1, 1]]] 0).rightColorBase =
      (make_image [[[(0 : ℚ), 0], [0, 0]]] [[[(0 : ℚ), 0], [0, 0]]]
        [[[(1 : ℚ), 1], [1, 1]]] 0).leftColorBase ∧
    (make_image [[[(0 : ℚ), 0], [0, 0]]] [[[(0 : ℚ), 0], [0, 0]]]
        [[[(1 : ℚ), 1], [1, 1]]] 0).rightColorBase ≠
      normClipMat (transposeRev (slice1 [[[(1 : ℚ), 1], [1, 1]]] 0)) ∧
    (make_image [[[(0 : ℚ), 0], [0, 0]]] [[[(0 : ℚ), 0], [0, 0]]]
        [[[(1 : ℚ), 1], [1, 1]]] 0).rightAlpha = [[[(1 : ℚ), 1], [1, 1]]] := by
  refine ⟨rfl, ?_, rfl⟩
  have hc : (make_image [[[(0 : ℚ), 0], [0, 0]]] [[[(0 : ℚ), 0], [0, 0]]]
      [[[(1 : ℚ), 1], [1, 1]]] 0).rightColorBase = [[0], [0]] := by
    with_unfolding_all rfl
  have hp : normClipMat (transposeRev (slice1 [[[(1 : ℚ), 1], [1, 1]]] 0)) =
      [[1], [1]] := by
    with_unfolding_all rfl
  rw [hc, hp]
  decide

/-- Claim C10: the partition evaluator fetches every patient through the
dataset's training-split accessor (`brats.train.patient(id)`), whichever
partition is being evaluated: two datasets that agree on the train
accessor — but differ arbitrarily on the validation and test accessors —
produce identical evaluation output on all three partitions. -/
theorem C10_train_split_only (run_model : List Vol4 → Vol3) (ds ds' : DataSet)
    (h : ds.train = ds'.train) (train_ids test_ids validation_ids : List String) :
    evaluate run_model ds train_ids test_ids validation_ids =
      evaluate run_model ds' train_ids test_ids validation_ids := by
  simp only [evaluate, make_histograms_and_images, h]

/-- Witness for C10: two concrete datasets sharing only the train accessor
evaluate identically on concrete partitions. -/
theorem C10_witness :
    evaluate (fun _ => [])
      { train := fun _ => { id := "a", mri := [], seg := [], flair := [] },
        validation := fun _ => { id := "a", mri := [], seg := [], flair := [] },
        test := fun _ => { id := "a", mri := [], seg := [], flair := [] } }
      ["p1"] ["p2"] ["p3"] =
    evaluate (fun _ => [])
      { train := fun _ => { id := "a", mri := [], seg := [], flair := [] },
        validation := fun _ => { id := "b", mri := [], seg := [[[1]]], flair := [[[1]]] },
        test := fun _ => { id := "c", mri := [], seg := [[[2]]], flair := [[[2]]] } }
      ["p1"] ["p2"] ["p3"] :=
  C10_train_split_only (fun _ => []) _ _ rfl ["p1"] ["p2"] ["p3"]
